import Mathlib

/-!
# MathChamp — Adaptive Mastery & Progression Engine: verification development

This file embeds, in Lean 4, the parts of the `math-champ` repository that the
verified properties speak about:

* the gamification UI components that actually exist in the source tree
  (`src/components/gamification/ProgressBar.tsx` and `Achievement.tsx`), embedded
  directly from their code; and
* the Adaptive Mastery & Progression Engine (attempt validator, mastery
  estimator, spaced-repetition scheduler, streak tracker, achievement evaluator
  and progression coordinator).  The repository contains only the declarative
  data model for the engine (`src/unnamed/part_007`, the TypeScript interfaces
  `Student`, `TopicProgress`, `ProblemAttempt`, `Achievement`,
  `AchievementRequirement`, …); the algorithmic core itself is not present in
  the source tree, so those operations are modelled from the specification's
  words and every such definition is marked `Modelled from the spec:`.

Numbers: mastery scores, accuracies and requirement targets are rationals
(`ℚ`); identifiers, counters, day stamps and intervals are naturals (`ℕ`);
raw time-spent values are integers (`ℤ`) since unvalidated input may be
negative.
-/

namespace MathChamp

/-! ## ProgressBar component (src/src/components/gamification/ProgressBar.tsx) -/

/-- JavaScript `Math.round` on a rational: round half away from zero towards
positive infinity, i.e. `⌊q + 1/2⌋`. -/
def jsRound (q : ℚ) : ℤ := ⌊q + 1 / 2⌋

/-- The observable outputs of one `ProgressBar` render: the ARIA attributes of
the `progressbar` element and the percentage used for the fill width style. -/
structure ProgressBarView where
  ariaValueNow : ℚ
  ariaValueMin : ℚ
  ariaValueMax : ℚ
  fillWidthPercent : ℤ
deriving DecidableEq

/-- Embedding of `ProgressBar` (ProgressBar.tsx, lines 87–138):
`clampedValue = Math.max(0, Math.min(value, max))`,
`percentage = Math.round((clampedValue / max) * 100)`,
`aria-valuenow={clampedValue}`, `aria-valuemin={0}`, `aria-valuemax={max}`,
fill width `percentage%`.  `max` defaults to `100` at the call site. -/
def renderProgressBar (value : ℚ) (max : ℚ) : ProgressBarView :=
  let clampedValue : ℚ := Max.max 0 (Min.min value max)
  let percentage : ℤ := jsRound (clampedValue / max * 100)
  { ariaValueNow := clampedValue
    ariaValueMin := 0
    ariaValueMax := max
    fillWidthPercent := percentage }

/-! ## Achievement component (src/src/components/gamification/Achievement.tsx) -/

/-- JavaScript truthiness of the optional numeric prop `points`:
`undefined` and `0` are falsy, every other number is truthy. -/
def jsTruthyNum : Option ℚ → Bool
  | none => false
  | some p => if p = 0 then false else true

/-- The two conditionally rendered fragments of one `Achievement` render:
whether the `+points` badge is shown and whether the progress indicator is
shown. -/
structure AchievementView where
  showPointsBadge : Bool
  showProgressIndicator : Bool
deriving DecidableEq

/-- Embedding of `Achievement` (Achievement.tsx, lines 133–198):
the points badge is guarded by `{points && unlocked && …}` and the progress
indicator by `{!unlocked && progress > 0 && …}`.  Defaults at the component
boundary: `unlocked = false`, `progress = 0`. -/
def renderAchievement (unlocked : Bool) (progress : ℚ) (points : Option ℚ) :
    AchievementView :=
  { showPointsBadge := jsTruthyNum points && unlocked
    showProgressIndicator := !unlocked && decide (0 < progress) }

end MathChamp

namespace MathChamp

/-! ## Adaptive Mastery & Progression Engine

The repository ships only the declarative data model of the engine
(`src/unnamed/part_007`); the estimator, scheduler, streak tracker, achievement
evaluator and coordinator are absent from the source tree.  The definitions
below are therefore modelled from the specification.  Tunable constants whose
exact values the source material leaves open (spec §9) are fixed here to
representative values that respect the shapes the spec demands. -/

/-- Modelled from the spec: the validator's view of an answer's shape —
"numeric, choice index, or free text" (spec §4.1). -/
inductive Answer
  | numeric (n : ℤ)
  | choiceIndex (i : ℕ)
  | freeText (s : String)
deriving DecidableEq

/-- Modelled from the spec: the answer shape a problem expects, with the
number of options for a multiple-choice problem (spec §4.1). -/
inductive PType
  | numericAnswer
  | choice (numChoices : ℕ)
  | freeTextAnswer
deriving DecidableEq

/-- Modelled from the spec: the immutable `Problem` reference entity — topic,
calibrated difficulty (1–10), answer shape, canonical answer, point value
(spec §3; fields mirror the `Problem` interface of `part_007`). -/
structure Problem where
  topic : ℕ
  difficulty : ℕ
  ptype : PType
  correctAnswer : Answer
  points : ℕ
deriving DecidableEq

/-- Modelled from the spec: the mutable per-(student, topic) `TopicProgress`
aggregate — mastery score (0–100), attempt and correct counts, rolling
accuracy, current recommended difficulty, last-practiced stamp (spec §3;
fields mirror the `TopicProgress` interface of `part_007`). -/
structure TopicProgress where
  masteryLevel : ℚ
  problemsAttempted : ℕ
  problemsSolved : ℕ
  accuracy : ℚ
  lastPracticed : ℕ
  currentDifficulty : ℕ
deriving DecidableEq

/-- Modelled from the spec: a scheduler-owned `ReviewItem` queue entry —
(student, topic), due stamp, interval length, lapse count, and whether the
item has been consumed by a review (spec §3, §4.3).  `scheduled` versus `due`
is derived by comparing `due` with the current day, not stored. -/
structure ReviewItem where
  studentId : ℕ
  topic : ℕ
  due : ℕ
  intervalLen : ℕ
  lapseCount : ℕ
  reviewed : Bool
deriving DecidableEq

/-- Modelled from the spec: per-student `StreakState` — current streak length,
longest streak, last-credited day (spec §3, §4.5). -/
structure StreakState where
  current : ℕ
  longest : ℕ
  lastCredited : ℕ
deriving DecidableEq

/-- Modelled from the spec: the `StudentAchievement` join row — student id,
achievement id, earned stamp; created exactly once per pair (spec §3). -/
structure StudentAchievement where
  studentId : ℕ
  achievementId : ℕ
  earnedAt : ℕ
deriving DecidableEq

/-- Modelled from the spec: the closed set of `AchievementRequirement.type`
variants of `part_007`. -/
inductive ReqKind
  | problemsSolved
  | topicMastery
  | streakDays
  | competitionParticipation
  | accuracyRate
deriving DecidableEq

/-- Modelled from the spec: an `AchievementRequirement` — kind, target value,
optional topic scope (spec §3; mirrors `part_007`). -/
structure AchievementRequirement where
  kind : ReqKind
  targetValue : ℚ
  topic : Option ℕ
deriving DecidableEq

/-- Modelled from the spec: an immutable `Achievement` definition — its
requirements and whether it is currently active (spec §3; mirrors
`part_007`). -/
structure AchievementDef where
  requirements : List AchievementRequirement
  isActive : Bool
deriving DecidableEq

/-- Modelled from the spec: the immutable reference data the engine reads —
existing students, problems keyed by id, achievement definitions keyed by id
(spec §6, collaborator inputs). -/
structure Env where
  students : List ℕ
  problems : List (ℕ × Problem)
  achievements : List (ℕ × AchievementDef)
deriving DecidableEq

/-- Modelled from the spec: a raw `ProblemAttempt` event as submitted by the
caller — student id, problem id, submitted answer, time spent, hints used,
client-assigned idempotency key, and the calendar day of the attempt
(spec §3, §6; mirrors the `ProblemAttempt` interface of `part_007`). -/
structure RawAttempt where
  studentId : ℕ
  problemId : ℕ
  submittedAnswer : Answer
  timeSpent : ℤ
  hintsUsed : ℕ
  idempotencyKey : ℕ
  day : ℕ
deriving DecidableEq

/-- Modelled from the spec: the specific rejection reasons of the Attempt
Validator (spec §4.1, §7). -/
inductive RejectReason
  | unknownStudent
  | unknownProblem
  | duplicateKey
  | malformedAnswer
  | implausibleTiming
deriving DecidableEq

/-- Modelled from the spec: the ingress result
`{accepted, rejected(reason)}` (spec §6). -/
inductive SubmitResult
  | accepted
  | rejected (reason : RejectReason)
deriving DecidableEq

/-- Modelled from the spec: the engine state owned by the Progression
Coordinator — `TopicProgress` per (student, topic), the review queue, streak
state per student, earned `StudentAchievement` rows, and the set of
idempotency keys already applied per student (spec §3). -/
structure EngineState where
  progress : List ((ℕ × ℕ) × TopicProgress)
  reviews : List ReviewItem
  streaks : List (ℕ × StreakState)
  studentAchievements : List StudentAchievement
  seenKeys : List (ℕ × ℕ)
deriving DecidableEq

/-- The empty engine state before any attempt has been processed. -/
def initState : EngineState := ⟨[], [], [], [], []⟩

/-- Association-list lookup by key. -/
def lookupList {α β : Type} [BEq α] (l : List (α × β)) (k : α) : Option β :=
  (l.find? (fun e => e.1 == k)).map (fun e => e.2)

/-- Association-list insert-or-replace: the new binding shadows and removes
every previous binding of the same key. -/
def upsertList {α β : Type} [BEq α] (l : List (α × β)) (k : α) (v : β) :
    List (α × β) :=
  (k, v) :: l.filter (fun e => !(e.1 == k))

/-- Modelled from the spec: the validator's sanity ceiling on time spent, in
seconds (spec §4.1 fixes only its existence; one day is representative). -/
def timeCeiling : ℤ := 86400

/-- Modelled from the spec: the streak grace window in extra missed days
(spec §4.5, "e.g., one missed day"). -/
def graceWindow : ℕ := 1

/-- Modelled from the spec: the scheduler's short floor interval in days
(spec §4.3). -/
def floorInterval : ℕ := 1

/-- Modelled from the spec: the scheduler's maximum interval in days
(spec §4.3). -/
def maxInterval : ℕ := 365

/-- Modelled from the spec: the neutral starting mastery of the first-attempt
bootstrap (spec §4.2). -/
def neutralMastery : ℚ := 50

/-- Modelled from the spec: answer well-formedness for the problem's expected
shape (spec §4.1). -/
def wellFormedAnswer : Answer → PType → Bool
  | .numeric _, .numericAnswer => true
  | .choiceIndex i, .choice n => decide (i < n)
  | .freeText _, .freeTextAnswer => true
  | _, _ => false

/-- Modelled from the spec: mastery is clamped to `[0, 100]` (spec §4.2). -/
def clampScore (x : ℚ) : ℚ := Max.max 0 (Min.min 100 x)

/-- Modelled from the spec: the mastery ceiling a correct attempt pulls
towards, proportional to problem difficulty — difficulty 1–10 maps onto the
0–100 mastery scale (spec §4.2). -/
def masteryCeiling (difficulty : ℕ) : ℚ := 10 * difficulty

/-- Modelled from the spec: the diminishing-returns learning-rate schedule —
the update step size decays as the attempt count grows (spec §4.2). -/
def learningRate (attempts : ℕ) : ℚ := 1 / (attempts + 1)

/-- Modelled from the spec: the Mastery Estimator's update rule.  A correct
attempt moves mastery toward a ceiling proportional to problem difficulty
relative to current mastery (harder correct answers count more, trivially
easy ones count less); an incorrect attempt moves mastery down proportional to
how far the problem's difficulty was below the student's current level.  The
result is clamped to `[0, 100]` (spec §4.2). -/
def updateMastery (m : ℚ) (attempts difficulty : ℕ) (correct : Bool) : ℚ :=
  if correct then
    clampScore (m + learningRate attempts * Max.max 0 (masteryCeiling difficulty - m))
  else
    clampScore (m - learningRate attempts * Max.max 0 (m - masteryCeiling difficulty))

/-- Modelled from the spec: recommended difficulty as a pure monotone function
of current mastery, mapping `[0, 100]` onto the 1–10 difficulty scale
(spec §4.2). -/
def recommendedDifficulty (m : ℚ) : ℕ := Min.min 10 (1 + (⌊m⌋.toNat) / 10)

/-- Modelled from the spec: the Streak Tracker transition, driven solely by
the elapsed-day delta.  First attempt ever: streak 1.  Same day: no change
(idempotent re-credit).  Yesterday or within the grace window: increment.
Gap exceeding the grace window: reset to 1, with longest-streak updated from
the prior value before the reset (spec §4.5). -/
def updateStreak (prior : Option StreakState) (today : ℕ) : StreakState :=
  match prior with
  | none => ⟨1, 1, today⟩
  | some st =>
    let gap := today - st.lastCredited
    if gap = 0 then st
    else if gap ≤ 1 + graceWindow then
      ⟨st.current + 1, Max.max st.longest (st.current + 1), today⟩
    else
      ⟨1, Max.max st.longest st.current, today⟩

/-- An item that still occupies the (student, topic) slot of the review
queue: it belongs to the pair and has not been consumed by a review. -/
def activeFor (st t : ℕ) (r : ReviewItem) : Bool :=
  r.studentId == st && r.topic == t && !r.reviewed

/-- Number of active (non-reviewed) review items for a (student, topic)
pair. -/
def countActive (l : List ReviewItem) (st t : ℕ) : ℕ :=
  l.countP (activeFor st t)

/-- Transition an item to `reviewed` when the incoming attempt acts on its
(student, topic) pair. -/
def markReviewed (st t : ℕ) (r : ReviewItem) : ReviewItem :=
  if activeFor st t r then { r with reviewed := true } else r

/-- Modelled from the spec: the Spaced-Repetition Scheduler update on an
attempt.  The pending active item of the pair (if any) transitions to
`reviewed`; on success the interval is multiplied by the growth factor 2
(≥ 1.5) bounded by the maximum interval, on a lapse the lapse count
increments and the interval resets to the floor; a fresh topic starts at the
floor.  One new `scheduled` item is created with `due = day + interval`, so
the new item replaces the old active one instead of duplicating it
(spec §4.3). -/
def scheduleNext (l : List ReviewItem) (st t day : ℕ) (correct : Bool) :
    List ReviewItem :=
  let marked := l.map (markReviewed st t)
  let next : ℕ × ℕ :=
    match l.find? (activeFor st t) with
    | none => (floorInterval, 0)
    | some r =>
      if correct then (Min.min maxInterval (r.intervalLen * 2), r.lapseCount)
      else (floorInterval, r.lapseCount + 1)
  marked ++ [⟨st, t, day + next.1, next.1, next.2, false⟩]

/-- Modelled from the spec: the refreshed per-student aggregates handed to the
Achievement Evaluator — total problems solved and attempted, per-topic
mastery, current streak, competition participation count (spec §4.4; the
engine processes no competition events, so that count is 0). -/
structure Aggregates where
  totalSolved : ℕ
  totalAttempted : ℕ
  topicMasteryOf : ℕ → ℚ
  streakDays : ℕ
  competitionCount : ℕ

/-- Compute the aggregates of one student from the updated progress map and
streak state. -/
def computeAggregates (prog : List ((ℕ × ℕ) × TopicProgress))
    (streak : StreakState) (st : ℕ) : Aggregates :=
  let mine := prog.filter (fun e => e.1.1 == st)
  { totalSolved := (mine.map (fun e => e.2.problemsSolved)).sum
    totalAttempted := (mine.map (fun e => e.2.problemsAttempted)).sum
    topicMasteryOf := fun t =>
      ((lookupList prog (st, t)).map (fun tp => tp.masteryLevel)).getD 0
    streakDays := streak.current
    competitionCount := 0 }

/-- Modelled from the spec: evaluate one `AchievementRequirement` as a boolean
against the aggregates (spec §4.4). -/
def evalRequirement (agg : Aggregates) (r : AchievementRequirement) : Bool :=
  match r.kind with
  | .problemsSolved => decide (r.targetValue ≤ (agg.totalSolved : ℚ))
  | .topicMastery =>
    match r.topic with
    | some t => decide (r.targetValue ≤ agg.topicMasteryOf t)
    | none => false
  | .streakDays => decide (r.targetValue ≤ (agg.streakDays : ℚ))
  | .competitionParticipation => decide (r.targetValue ≤ (agg.competitionCount : ℚ))
  | .accuracyRate =>
    if agg.totalAttempted = 0 then false
    else decide (r.targetValue ≤ (agg.totalSolved : ℚ) / (agg.totalAttempted : ℚ) * 100)

/-- Whether a `StudentAchievement` row already exists for the pair. -/
def alreadyEarned (rows : List StudentAchievement) (st aid : ℕ) : Bool :=
  rows.any (fun r => r.studentId == st && r.achievementId == aid)

/-- Modelled from the spec: an achievement unlocks when it is active, has not
already been earned by this student (idempotent check against existing
`StudentAchievement` rows), and all of its requirements evaluate true
simultaneously (spec §4.4). -/
def unlockable (rows : List StudentAchievement) (agg : Aggregates) (st : ℕ)
    (x : ℕ × AchievementDef) : Bool :=
  x.2.isActive && !(alreadyEarned rows st x.1) &&
    x.2.requirements.all (evalRequirement agg)

/-- Modelled from the spec: the Achievement Evaluator — for each achievement
definition, in insertion order, propose a new `StudentAchievement` row when it
unlocks (spec §4.4). -/
def evaluateAchievements (env : Env) (rows : List StudentAchievement)
    (agg : Aggregates) (st day : ℕ) : List StudentAchievement :=
  (env.achievements.filter (unlockable rows agg st)).map (fun x => ⟨st, x.1, day⟩)

/-- Modelled from the spec: the first-attempt bootstrap `TopicProgress` with
neutral starting mastery (spec §4.2). -/
def bootstrapProgress (day : ℕ) : TopicProgress :=
  ⟨neutralMastery, 0, 0, 0, day, recommendedDifficulty neutralMastery⟩

/-- Modelled from the spec: the Progression Coordinator's application of one
validated attempt — estimator update, streak update, scheduler re-derivation,
achievement evaluation against the now-current aggregates, and recording of
the idempotency key, as one atomic state change (spec §4.6). -/
def applyAttempt (env : Env) (s : EngineState) (a : RawAttempt) (p : Problem) :
    EngineState :=
  let st := a.studentId
  let t := p.topic
  let correct : Bool := a.submittedAnswer == p.correctAnswer
  let tp0 := (lookupList s.progress (st, t)).getD (bootstrapProgress a.day)
  let m := updateMastery tp0.masteryLevel tp0.problemsAttempted p.difficulty correct
  let att := tp0.problemsAttempted + 1
  let sol := tp0.problemsSolved + (if correct then 1 else 0)
  let tp : TopicProgress :=
    ⟨m, att, sol, (sol : ℚ) / (att : ℚ) * 100, a.day, recommendedDifficulty m⟩
  let prog := upsertList s.progress (st, t) tp
  let streak := updateStreak (lookupList s.streaks st) a.day
  { progress := prog
    reviews := scheduleNext s.reviews st t a.day correct
    streaks := upsertList s.streaks st streak
    studentAchievements := s.studentAchievements ++
      evaluateAchievements env s.studentAchievements
        (computeAggregates prog streak st) st a.day
    seenKeys := (st, a.idempotencyKey) :: s.seenKeys }

/-- Modelled from the spec: the Attempt Validator — referenced student and
problem must exist, the idempotency key must not have been seen for this
student, the submitted answer must be well-formed for the problem's shape,
and time spent must be non-negative and below the sanity ceiling; on failure
it signals the specific reason (spec §4.1). -/
def validate (env : Env) (s : EngineState) (a : RawAttempt) : Option RejectReason :=
  if !(env.students.contains a.studentId) then some .unknownStudent
  else
    match lookupList env.problems a.problemId with
    | none => some .unknownProblem
    | some p =>
      if s.seenKeys.contains (a.studentId, a.idempotencyKey) then some .duplicateKey
      else if !(wellFormedAnswer a.submittedAnswer p.ptype) then some .malformedAnswer
      else if a.timeSpent < 0 ∨ timeCeiling < a.timeSpent then some .implausibleTiming
      else none

/-- Modelled from the spec: the ingress `submitAttempt` — validate, and either
reject with the specific reason and no state mutation, or apply the
coordinated update (spec §4.6, §6). -/
def submitAttempt (env : Env) (s : EngineState) (a : RawAttempt) :
    SubmitResult × EngineState :=
  match validate env s a with
  | some r => (.rejected r, s)
  | none =>
    match lookupList env.problems a.problemId with
    | none => (.rejected .unknownProblem, s)
    | some p => (.accepted, applyAttempt env s a p)

/-- The states reachable from the empty engine state by any sequence of
submitted attempt events. -/
inductive Reachable (env : Env) : EngineState → Prop
  | init : Reachable env initState
  | step {s : EngineState} (a : RawAttempt) :
      Reachable env s → Reachable env (submitAttempt env s a).2

/-- Well-formed reference data: achievement definition ids are distinct. -/
def EnvWf (env : Env) : Prop :=
  (env.achievements.map (fun x => x.1)).Nodup

/-! ### Concrete fixtures used to exhibit the properties on closed inputs -/

/-- An environment with no reference data at all. -/
def envEmpty : Env := ⟨[], [], []⟩

/-- A one-student, one-problem, one-achievement environment: student 7,
problem 3 (topic 2, difficulty 5, numeric answer 42, 10 points), achievement 1
requiring one solved problem. -/
def envA : Env :=
  ⟨[7], [(3, ⟨2, 5, .numericAnswer, .numeric 42, 10⟩)],
    [(1, ⟨[⟨.problemsSolved, 1, none⟩], true⟩)]⟩

/-- A correct attempt by student 7 on problem 3 (answer 42, 60 seconds, key
11, day 5). -/
def attemptA : RawAttempt := ⟨7, 3, .numeric 42, 60, 0, 11, 5⟩

/-- An attempt referencing a student that does not exist in `envEmpty`. -/
def attemptB : RawAttempt := ⟨0, 0, .numeric 0, 0, 0, 0, 0⟩

/-! ### General helper lemmas -/

theorem mem_upsertList {α β : Type} [BEq α] {l : List (α × β)} {k : α} {v : β}
    {e : α × β} (h : e ∈ upsertList l k v) : e = (k, v) ∨ e ∈ l := by
  unfold upsertList at h
  rcases List.mem_cons.mp h with h | h
  · exact Or.inl h
  · exact Or.inr (List.mem_of_mem_filter h)

theorem lookupList_mem {α β : Type} [BEq α] {l : List (α × β)} {k : α} {v : β}
    (h : lookupList l k = some v) : ∃ e ∈ l, e.2 = v := by
  unfold lookupList at h
  cases hf : l.find? (fun e => e.1 == k) with
  | none => rw [hf] at h; simp at h
  | some e =>
    rw [hf] at h
    exact ⟨e, List.mem_of_find?_eq_some hf, by simpa using h⟩

theorem submit_snd_cases (env : Env) (s : EngineState) (a : RawAttempt) :
    (submitAttempt env s a).2 = s ∨
      ∃ p, lookupList env.problems a.problemId = some p ∧
        (submitAttempt env s a).2 = applyAttempt env s a p := by
  unfold submitAttempt
  cases hv : validate env s a with
  | some r => exact Or.inl rfl
  | none =>
    cases hp : lookupList env.problems a.problemId with
    | none => exact Or.inl rfl
    | some p => exact Or.inr ⟨p, rfl, rfl⟩

theorem reachable_inv {env : Env} {P : EngineState → Prop}
    (hinit : P initState)
    (happly : ∀ s a p, P s → P (applyAttempt env s a p)) :
    ∀ s, Reachable env s → P s := by
  intro s h
  induction h with
  | init => exact hinit
  | step a _ ih =>
    rcases submit_snd_cases env _ a with he | ⟨p, _, he⟩ <;> rw [he]
    · exact ih
    · exact happly _ _ _ ih

/-! ### Mastery estimator lemmas -/

theorem clampScore_nonneg (x : ℚ) : 0 ≤ clampScore x := le_max_left _ _

theorem clampScore_le_hundred (x : ℚ) : clampScore x ≤ 100 :=
  max_le (by norm_num) (min_le_left _ _)

theorem clampScore_ge_of {m y : ℚ} (h1 : m ≤ 100) (h : m ≤ y) :
    m ≤ clampScore y :=
  (le_min h1 h).trans (le_max_right _ _)

theorem clampScore_le_of {m y : ℚ} (h0 : 0 ≤ m) (h : y ≤ m) :
    clampScore y ≤ m :=
  max_le h0 ((min_le_right _ _).trans h)

theorem learningRate_nonneg (n : ℕ) : 0 ≤ learningRate n := by
  unfold learningRate
  positivity

theorem updateMastery_mem_Icc (m : ℚ) (n d : ℕ) (c : Bool) :
    0 ≤ updateMastery m n d c ∧ updateMastery m n d c ≤ 100 := by
  unfold updateMastery
  cases c <;> simp <;> exact ⟨clampScore_nonneg _, clampScore_le_hundred _⟩

theorem updateMastery_ge {m : ℚ} (n d : ℕ) (h1 : m ≤ 100) :
    m ≤ updateMastery m n d true := by
  unfold updateMastery
  simp only [if_pos]
  refine clampScore_ge_of h1 (le_add_of_nonneg_right ?_)
  exact mul_nonneg (learningRate_nonneg n) (le_max_left _ _)

theorem updateMastery_le {m : ℚ} (n d : ℕ) (h0 : 0 ≤ m) :
    updateMastery m n d false ≤ m := by
  unfold updateMastery
  simp only [Bool.false_eq_true, if_neg, not_false_eq_true]
  refine clampScore_le_of h0 (sub_le_self m ?_)
  exact mul_nonneg (learningRate_nonneg n) (le_max_left _ _)

theorem recommendedDifficulty_mono {m m₂ : ℚ} (h : m ≤ m₂) :
    recommendedDifficulty m ≤ recommendedDifficulty m₂ := by
  unfold recommendedDifficulty
  have h2 : (⌊m⌋).toNat ≤ (⌊m₂⌋).toNat :=
    Int.toNat_le_toNat (Int.floor_le_floor h)
  exact min_le_min (le_refl 10)
    (Nat.add_le_add_left (Nat.div_le_div_right h2) 1)

theorem progress_mastery_inv (env : Env) :
    ∀ s, Reachable env s →
      ∀ e ∈ s.progress, 0 ≤ e.2.masteryLevel ∧ e.2.masteryLevel ≤ 100 := by
  refine reachable_inv (by intro e he; simp [initState] at he) ?_
  intro s a p ih e he
  unfold applyAttempt at he
  simp only at he
  rcases mem_upsertList he with rfl | he
  · exact updateMastery_mem_Icc _ _ _ _
  · exact ih e he

/-! ### Streak tracker lemmas -/

theorem updateStreak_pos (prior : Option StreakState) (today : ℕ)
    (h : ∀ st, prior = some st → 1 ≤ st.current) :
    1 ≤ (updateStreak prior today).current := by
  cases prior with
  | none => simp [updateStreak]
  | some st =>
    have hst := h st rfl
    unfold updateStreak
    dsimp only
    split
    · exact hst
    · split <;> simp

theorem streaks_inv (env : Env) :
    ∀ s, Reachable env s → ∀ e ∈ s.streaks, 1 ≤ e.2.current := by
  refine reachable_inv (by intro e he; simp [initState] at he) ?_
  intro s a p ih e he
  unfold applyAttempt at he
  simp only at he
  rcases mem_upsertList he with rfl | he
  · refine updateStreak_pos _ _ ?_
    intro st hst
    obtain ⟨e₀, he₀, hv₀⟩ := lookupList_mem hst
    simpa [hv₀] using ih e₀ he₀
  · exact ih e he

theorem updateStreak_reset (ss : StreakState) (today : ℕ)
    (hgap : 1 + graceWindow < today - ss.lastCredited) :
    updateStreak (some ss) today =
      ⟨1, Max.max ss.longest ss.current, today⟩ := by
  unfold updateStreak
  have h1 : ¬(today - ss.lastCredited = 0) := by omega
  have h2 : ¬(today - ss.lastCredited ≤ 1 + graceWindow) := by omega
  simp [h1, h2]

/-! ### Validator and coordinator lemmas -/

theorem seenKeys_applyAttempt (env : Env) (s : EngineState) (a : RawAttempt)
    (p : Problem) :
    (applyAttempt env s a p).seenKeys =
      (a.studentId, a.idempotencyKey) :: s.seenKeys := rfl

theorem validate_after_apply {env : Env} {s : EngineState} {a : RawAttempt}
    {p : Problem} (hv : validate env s a = none)
    (hp : lookupList env.problems a.problemId = some p) :
    validate env (applyAttempt env s a p) a = some .duplicateKey := by
  unfold validate at hv ⊢
  by_cases hs : env.students.contains a.studentId
  · rw [hp] at hv ⊢
    simp only [hs, Bool.not_true, Bool.false_eq_true, if_false] at hv ⊢
    rw [seenKeys_applyAttempt]
    have hc : ((a.studentId, a.idempotencyKey) :: s.seenKeys).contains
        (a.studentId, a.idempotencyKey) = true := by
      simp [List.contains_cons]
    rw [if_pos hc]
  · rw [if_pos (by simpa using hs)] at hv
    cases hv

theorem rejected_no_mutation {env : Env} {s : EngineState} {a : RawAttempt}
    {r : RejectReason} (h : validate env s a = some r) :
    submitAttempt env s a = (.rejected r, s) := by
  unfold submitAttempt
  rw [h]

theorem submit_twice_eq_once (env : Env) (s : EngineState) (a : RawAttempt) :
    (submitAttempt env (submitAttempt env s a).2 a).2 =
      (submitAttempt env s a).2 := by
  cases hv : validate env s a with
  | some r =>
    rw [rejected_no_mutation hv]
    rw [rejected_no_mutation hv]
  | none =>
    cases hp : lookupList env.problems a.problemId with
    | none =>
      have h1 : (submitAttempt env s a).2 = s := by
        unfold submitAttempt
        rw [hv, hp]
      rw [h1]
      unfold submitAttempt
      rw [hv, hp]
    | some p =>
      have h1 : (submitAttempt env s a).2 = applyAttempt env s a p := by
        unfold submitAttempt
        rw [hv, hp]
      rw [h1, rejected_no_mutation (validate_after_apply hv hp)]

theorem progress_difficulty_inv (env : Env) :
    ∀ s, Reachable env s →
      ∀ e ∈ s.progress,
        e.2.currentDifficulty = recommendedDifficulty e.2.masteryLevel := by
  refine reachable_inv (by intro e he; simp [initState] at he) ?_
  intro s a p ih e he
  unfold applyAttempt at he
  simp only at he
  rcases mem_upsertList he with rfl | he
  · rfl
  · exact ih e he

/-! ### Scheduler lemmas -/

theorem activeFor_markReviewed_self (st t : ℕ) (r : ReviewItem) :
    activeFor st t (markReviewed st t r) = false := by
  unfold markReviewed
  cases hb : activeFor st t r with
  | false => simp [hb]
  | true => simp [hb, activeFor]

theorem activeFor_markReviewed_ne (st t A T : ℕ) (r : ReviewItem)
    (h : (st, t) ≠ (A, T)) :
    activeFor st t (markReviewed A T r) = activeFor st t r := by
  unfold markReviewed
  cases hb : activeFor A T r with
  | false => simp [hb]
  | true =>
    unfold activeFor at hb
    simp only [Bool.and_eq_true, beq_iff_eq, Bool.not_eq_true'] at hb
    obtain ⟨⟨hA, hT⟩, hrev⟩ := hb
    have hne : ¬(A = st ∧ T = t) := by
      rintro ⟨h1, h2⟩
      exact h (by rw [h1, h2])
    simp only [if_pos rfl]
    simp only [activeFor, hA, hT, hrev]
    simp only [Bool.not_true, Bool.and_false, Bool.not_false, Bool.and_true]
    cases hA' : (A == st) with
    | false => simp
    | true =>
      cases hT' : (T == t) with
      | false => simp
      | true =>
        exact absurd ⟨by simpa using hA', by simpa using hT'⟩ hne

theorem countActive_marked_self (l : List ReviewItem) (st t : ℕ) :
    countActive (l.map (markReviewed st t)) st t = 0 := by
  unfold countActive
  rw [List.countP_map, List.countP_eq_zero]
  intro r _
  simp [Function.comp, activeFor_markReviewed_self]

theorem countActive_marked_ne (l : List ReviewItem) (st t A T : ℕ)
    (h : (st, t) ≠ (A, T)) :
    countActive (l.map (markReviewed A T)) st t = countActive l st t := by
  unfold countActive
  rw [List.countP_map]
  apply List.countP_congr
  intro r _
  simp only [Function.comp_apply, activeFor_markReviewed_ne st t A T r h]

theorem activeFor_new_ne (st t A T due ival lc : ℕ)
    (hne : ¬(A = st ∧ T = t)) :
    activeFor st t (⟨A, T, due, ival, lc, false⟩ : ReviewItem) = false := by
  simp only [activeFor, Bool.not_false, Bool.and_true]
  cases hA' : (A == st) with
  | false => simp
  | true =>
    cases hT' : (T == t) with
    | false => simp
    | true =>
      exact absurd ⟨by simpa using hA', by simpa using hT'⟩ hne

theorem countActive_scheduleNext_self (l : List ReviewItem) (st t day : ℕ)
    (c : Bool) :
    countActive (scheduleNext l st t day c) st t = 1 := by
  unfold scheduleNext
  dsimp only
  unfold countActive
  rw [List.countP_append]
  have h1 := countActive_marked_self l st t
  unfold countActive at h1
  rw [h1]
  simp [List.countP_cons, activeFor]

theorem countActive_scheduleNext_ne (l : List ReviewItem) (st t A T day : ℕ)
    (c : Bool) (h : (st, t) ≠ (A, T)) :
    countActive (scheduleNext l A T day c) st t = countActive l st t := by
  unfold scheduleNext
  dsimp only
  unfold countActive
  rw [List.countP_append]
  have h1 := countActive_marked_ne l st t A T h
  unfold countActive at h1
  rw [h1]
  have hne : ¬(A = st ∧ T = t) := by
    rintro ⟨h1', h2'⟩
    exact h (by rw [h1', h2'])
  rw [List.countP_cons]
  simp [activeFor_new_ne st t A T _ _ _ hne]

/-- The scheduler uniqueness invariant: a (student, topic) pair has exactly
one active review item when it has a progress record, and none otherwise. -/
def SchedInv (s : EngineState) : Prop :=
  ∀ st t, countActive s.reviews st t =
    if s.progress.any (fun e => e.1 == (st, t)) = true then 1 else 0

theorem any_key_upsert {β : Type} (l : List ((ℕ × ℕ) × β)) (k k' : ℕ × ℕ)
    (v : β) (h : k' ≠ k) :
    ((upsertList l k v).any (fun e => e.1 == k')) =
      (l.any (fun e => e.1 == k')) := by
  unfold upsertList
  rw [List.any_cons]
  have hk : ((k, v).1 == k') = false := beq_eq_false_iff_ne.mpr (fun hh => h hh.symm)
  rw [hk, Bool.false_or]
  cases hl : l.any (fun e => e.1 == k') with
  | true =>
    rw [List.any_eq_true] at hl ⊢
    obtain ⟨e, hel, hek⟩ := hl
    refine ⟨e, List.mem_filter.mpr ⟨hel, ?_⟩, hek⟩
    have he' : e.1 = k' := by simpa using hek
    simp [he', beq_eq_false_iff_ne.mpr h]
  | false =>
    rw [List.any_eq_false] at hl
    rw [List.any_eq_false]
    intro e hef
    exact hl e (List.mem_of_mem_filter hef)

theorem schedInv_apply (env : Env) (s : EngineState) (a : RawAttempt)
    (p : Problem) (ih : SchedInv s) : SchedInv (applyAttempt env s a p) := by
  unfold SchedInv at ih ⊢
  unfold applyAttempt
  dsimp only
  intro st t
  by_cases hpair : (st, t) = (a.studentId, p.topic)
  · have h1 : st = a.studentId := congrArg Prod.fst hpair
    have h2 : t = p.topic := congrArg Prod.snd hpair
    subst h1
    subst h2
    rw [countActive_scheduleNext_self]
    simp [upsertList]
  · rw [countActive_scheduleNext_ne _ _ _ _ _ _ _ hpair,
      any_key_upsert _ _ _ _ hpair]
    exact ih st t

theorem schedInv_reachable (env : Env) :
    ∀ s, Reachable env s → SchedInv s := by
  refine reachable_inv ?_ (fun s a p ih => schedInv_apply env s a p ih)
  intro st t
  simp [initState, countActive]

/-! ### Achievement evaluator lemmas -/

/-- The (student, achievement) key of a `StudentAchievement` row. -/
def achKey (r : StudentAchievement) : ℕ × ℕ := (r.studentId, r.achievementId)

theorem alreadyEarned_iff (rows : List StudentAchievement) (st aid : ℕ) :
    alreadyEarned rows st aid = true ↔ (st, aid) ∈ rows.map achKey := by
  unfold alreadyEarned
  rw [List.any_eq_true]
  constructor
  · rintro ⟨r, hr, hp⟩
    simp only [Bool.and_eq_true, beq_iff_eq] at hp
    exact List.mem_map.mpr ⟨r, hr, by simp [achKey, hp.1, hp.2]⟩
  · intro hmem
    obtain ⟨r, hr, hk⟩ := List.mem_map.mp hmem
    refine ⟨r, hr, ?_⟩
    unfold achKey at hk
    simp only [Prod.mk.injEq] at hk
    simp [hk.1, hk.2]

theorem achRows_nodup_apply (env : Env) (hwf : EnvWf env) (s : EngineState)
    (a : RawAttempt) (p : Problem)
    (ih : (s.studentAchievements.map achKey).Nodup) :
    ((applyAttempt env s a p).studentAchievements.map achKey).Nodup := by
  unfold applyAttempt
  dsimp only
  rw [List.map_append, List.nodup_append]
  refine ⟨ih, ?_, ?_⟩
  · unfold evaluateAchievements
    rw [List.map_map]
    have hfun : (achKey ∘ (fun x : ℕ × AchievementDef =>
        (⟨a.studentId, x.1, a.day⟩ : StudentAchievement))) =
        (fun i => (a.studentId, i)) ∘ (fun x : ℕ × AchievementDef => x.1) := rfl
    rw [hfun, ← List.map_map]
    refine List.Nodup.map ?_ ?_
    · intro i j hij
      simpa using hij
    · exact List.Nodup.sublist
        (List.Sublist.map _ (List.filter_sublist _)) hwf
  · intro x hxold hxnew
    unfold evaluateAchievements at hxnew
    rw [List.map_map] at hxnew
    obtain ⟨y, hy, hxy⟩ := List.mem_map.mp hxnew
    have hyu := (List.mem_filter.mp hy).2
    unfold unlockable at hyu
    simp only [Bool.and_eq_true, Bool.not_eq_true'] at hyu
    have hae : alreadyEarned s.studentAchievements a.studentId y.1 = false :=
      hyu.1.2
    have hkey : (a.studentId, y.1) = x := hxy
    rw [← hkey] at hxold
    rw [← alreadyEarned_iff] at hxold
    rw [hxold] at hae
    cases hae

theorem achRows_nodup (env : Env) (hwf : EnvWf env) :
    ∀ s, Reachable env s → (s.studentAchievements.map achKey).Nodup :=
  reachable_inv (by simp [initState])
    (fun s a p ih => achRows_nodup_apply env hwf s a p ih)

theorem achRows_preserved (env : Env) (s : EngineState) (a : RawAttempt) :
    ∀ r ∈ s.studentAchievements,
      r ∈ ((submitAttempt env s a).2).studentAchievements := by
  intro r hr
  rcases submit_snd_cases env s a with he | ⟨p, _, he⟩ <;> rw [he]
  · exact hr
  · unfold applyAttempt
    dsimp only
    exact List.mem_append_left _ hr

/-! ## Claim theorems for the engine (spec-modelled) -/

/-- C1: idempotent submission — for every engine state and every attempt event
carrying an idempotency key, applying `submitAttempt` twice with the same key
yields exactly the same `TopicProgress`, `StreakState` and `ReviewItem` state
(indeed the same whole state) as applying it once: the second application of
an already-seen key causes no additional state mutation. -/
theorem submitAttempt_idempotent (env : Env) (s : EngineState) (a : RawAttempt) :
    (submitAttempt env (submitAttempt env s a).2 a).2.progress =
        (submitAttempt env s a).2.progress ∧
    (submitAttempt env (submitAttempt env s a).2 a).2.streaks =
        (submitAttempt env s a).2.streaks ∧
    (submitAttempt env (submitAttempt env s a).2 a).2.reviews =
        (submitAttempt env s a).2.reviews ∧
    (submitAttempt env (submitAttempt env s a).2 a).2 =
        (submitAttempt env s a).2 := by
  have h := submit_twice_eq_once env s a
  exact ⟨by rw [h], by rw [h], by rw [h], h⟩

/-- C2: mastery bounds — in every reachable state, every stored
`TopicProgress.masteryLevel` lies in `[0, 100]`, and the Mastery Estimator's
update rule clamps its result to `[0, 100]` on all inputs. -/
theorem mastery_bounds (env : Env) (s : EngineState) (h : Reachable env s) :
    (∀ e ∈ s.progress, 0 ≤ e.2.masteryLevel ∧ e.2.masteryLevel ≤ 100) ∧
    (∀ (m : ℚ) (n d : ℕ) (c : Bool),
      0 ≤ updateMastery m n d c ∧ updateMastery m n d c ≤ 100) :=
  ⟨progress_mastery_inv env s h, fun m n d c => updateMastery_mem_Icc m n d c⟩

/-- Witness for C2: the update rule at a concrete input, with the reachability
hypothesis discharged at the initial state. -/
theorem mastery_bounds_witness :
    0 ≤ updateMastery 50 0 5 true ∧ updateMastery 50 0 5 true ≤ 100 :=
  (mastery_bounds envEmpty initState Reachable.init).2 50 0 5 true

/-- C3: scheduler uniqueness — in every reachable state, each
(student, topic) pair that has a progress record has exactly one active
(non-reviewed) `ReviewItem`, and a pair without one has none: creating a new
item for a topic that already has an active one replaces the existing item
rather than adding a second queue entry. -/
theorem reviewItem_uniqueness (env : Env) (s : EngineState)
    (h : Reachable env s) :
    ∀ st t, countActive s.reviews st t =
      if s.progress.any (fun e => e.1 == (st, t)) = true then 1 else 0 :=
  schedInv_reachable env s h

/-- Witness for C3: after one accepted attempt by student 7 on topic 2 the
pair has exactly one active review item. -/
theorem reviewItem_uniqueness_witness :
    countActive (submitAttempt envA initState attemptA).2.reviews 7 2 = 1 := by
  rw [reviewItem_uniqueness envA _ (Reachable.step attemptA Reachable.init) 7 2]
  decide

/-- C4: recommended difficulty is a pure monotone function of current mastery
and is re-derived after every update, never independently mutated: in every
reachable state each `TopicProgress.currentDifficulty` equals
`recommendedDifficulty` of its own `masteryLevel` (no drift is possible), and
`recommendedDifficulty` is monotone in mastery. -/
theorem recommendedDifficulty_derived (env : Env) (s : EngineState)
    (h : Reachable env s) :
    (∀ e ∈ s.progress,
      e.2.currentDifficulty = recommendedDifficulty e.2.masteryLevel) ∧
    (∀ m m₂ : ℚ, m ≤ m₂ →
      recommendedDifficulty m ≤ recommendedDifficulty m₂) :=
  ⟨progress_difficulty_inv env s h, fun _ _ hm => recommendedDifficulty_mono hm⟩

/-- Witness for C4: monotonicity at concrete masteries, with the reachability
hypothesis discharged at the initial state. -/
theorem recommendedDifficulty_derived_witness :
    recommendedDifficulty 30 ≤ recommendedDifficulty 70 :=
  (recommendedDifficulty_derived envEmpty initState Reachable.init).2 30 70
    (by norm_num)

/-- C5: streak invariant and reset rule — current streak length is
non-negative and is at least 1 for every student that has made an attempt
(streak entries exist exactly for such students), and on the first activity
after a gap exceeding the grace window the streak resets to 1 (not 0) with
longest-streak updated from the prior value before the reset. -/
theorem streak_reset_and_positive (env : Env) (s : EngineState)
    (h : Reachable env s) (ss : StreakState) (today : ℕ)
    (hgap : 1 + graceWindow < today - ss.lastCredited) :
    (∀ e ∈ s.streaks, 1 ≤ e.2.current) ∧
    updateStreak (some ss) today =
      ⟨1, Max.max ss.longest ss.current, today⟩ :=
  ⟨streaks_inv env s h, updateStreak_reset ss today hgap⟩

/-- Witness for C5: a streak of 3 with last credit on day 10 resets to 1 on
day 20, and the longest streak keeps the prior maximum 5. -/
theorem streak_reset_and_positive_witness :
    updateStreak (some ⟨3, 5, 10⟩) 20 = ⟨1, 5, 20⟩ := by
  rw [(streak_reset_and_positive envEmpty initState Reachable.init ⟨3, 5, 10⟩ 20
    (by decide)).2]
  decide

/-- C6: monotonicity of the mastery update — from any mastery in `[0, 100]`,
a correct attempt on a problem at or above the current recommended difficulty
leaves mastery ≥ its prior value, and an incorrect attempt on a problem at or
below the current difficulty leaves mastery ≤ its prior value. -/
theorem mastery_update_monotone (m : ℚ) (n d : ℕ) (h0 : 0 ≤ m) (h1 : m ≤ 100) :
    (recommendedDifficulty m ≤ d → m ≤ updateMastery m n d true) ∧
    (d ≤ recommendedDifficulty m → updateMastery m n d false ≤ m) :=
  ⟨fun _ => updateMastery_ge n d h1, fun _ => updateMastery_le n d h0⟩

/-- Witness for C6: at mastery 50 (recommended difficulty 6), a correct
attempt at difficulty 6 does not lower mastery and an incorrect attempt at
difficulty 4 does not raise it. -/
theorem mastery_update_monotone_witness :
    (50 : ℚ) ≤ updateMastery 50 0 6 true ∧ updateMastery 50 0 4 false ≤ 50 :=
  ⟨(mastery_update_monotone 50 0 6 (by norm_num) (by norm_num)).1 (by decide),
   (mastery_update_monotone 50 0 4 (by norm_num) (by norm_num)).2 (by decide)⟩

/-- C7: achievements unlock exactly once — in every reachable state the
`StudentAchievement` rows have pairwise-distinct (student, achievement) keys
(no pair is ever created twice, so re-evaluating an already-earned achievement
is a no-op), and every existing row survives every later submission unchanged
(rows are never mutated or removed). -/
theorem studentAchievement_exactly_once (env : Env) (s : EngineState)
    (hwf : EnvWf env) (h : Reachable env s) :
    (s.studentAchievements.map achKey).Nodup ∧
    (∀ (a : RawAttempt) (r : StudentAchievement),
      r ∈ s.studentAchievements →
        r ∈ ((submitAttempt env s a).2).studentAchievements) :=
  ⟨achRows_nodup env hwf s h, fun a r hr => achRows_preserved env s a r hr⟩

/-- Witness for C7: the keys are duplicate-free in the state reached by one
accepted attempt in the one-achievement environment. -/
theorem studentAchievement_exactly_once_witness :
    (((submitAttempt envA initState attemptA).2).studentAchievements.map
      achKey).Nodup :=
  (studentAchievement_exactly_once envA _ (by unfold EnvWf; decide)
    (Reachable.step attemptA Reachable.init)).1

/-- C8: validation rejection is mutation-free — whenever the Attempt
Validator fails, `submitAttempt` returns a rejection carrying that specific
reason and the engine state after the rejection equals the state before it. -/
theorem validator_rejects_pure (env : Env) (s : EngineState) (a : RawAttempt)
    (r : RejectReason) (h : validate env s a = some r) :
    submitAttempt env s a = (.rejected r, s) :=
  rejected_no_mutation h

/-- Witness for C8: an attempt naming a student unknown to the empty
environment is rejected with `unknownStudent` and the state is unchanged. -/
theorem validator_rejects_pure_witness :
    validate envEmpty initState attemptB = some .unknownStudent ∧
    submitAttempt envEmpty initState attemptB =
      (.rejected .unknownStudent, initState) :=
  ⟨rfl, validator_rejects_pure envEmpty initState attemptB .unknownStudent rfl⟩

/-- C9: for every numeric `value` and every `max > 0`, `ProgressBar` computes
`clampedValue = min(max(value, 0), max)`, exposes it as `aria-valuenow`, and
renders a fill width of `round(100 · clampedValue / max)` percent, which always
lies in `[0, 100]` — even when `value` is negative or exceeds `max`.  The
division by `max` is unguarded, so `max > 0` is a required precondition. -/
theorem progressBar_clamped_bounds (value max : ℚ) (hmax : 0 < max) :
    (renderProgressBar value max).ariaValueNow = Min.min (Max.max value 0) max ∧
    (renderProgressBar value max).fillWidthPercent =
      jsRound (Min.min (Max.max value 0) max / max * 100) ∧
    0 ≤ (renderProgressBar value max).fillWidthPercent ∧
    (renderProgressBar value max).fillWidthPercent ≤ 100 := by
  have hclamp : Max.max 0 (Min.min value max) = Min.min (Max.max value 0) max := by
    rw [max_min_distrib_left 0 value max, max_comm 0 value,
      max_eq_right hmax.le]
  have h0c : (0 : ℚ) ≤ Max.max 0 (Min.min value max) := le_max_left _ _
  have hcm : Max.max 0 (Min.min value max) ≤ max :=
    max_le hmax.le (min_le_right _ _)
  have hratio0 : (0 : ℚ) ≤ Max.max 0 (Min.min value max) / max * 100 := by
    have := div_nonneg h0c hmax.le
    linarith
  have hratio1 : Max.max 0 (Min.min value max) / max * 100 ≤ 100 := by
    have hle1 : Max.max 0 (Min.min value max) / max ≤ 1 :=
      (div_le_one hmax).mpr hcm
    linarith
  refine ⟨hclamp, by rw [renderProgressBar, hclamp], ?_, ?_⟩
  · show 0 ≤ jsRound (Max.max 0 (Min.min value max) / max * 100)
    unfold jsRound
    exact Int.floor_nonneg.mpr (by linarith)
  · show jsRound (Max.max 0 (Min.min value max) / max * 100) ≤ 100
    have h101 : Max.max 0 (Min.min value max) / max * 100 + 1 / 2 < (101 : ℤ) := by
      push_cast
      linarith
    have := Int.floor_lt.mpr h101
    unfold jsRound
    omega

/-- Witness for C9: with `value = 150` and `max = 100` the clamp takes effect
and the rendered width stays within `[0, 100]`. -/
theorem progressBar_clamped_bounds_witness :
    (renderProgressBar 150 100).ariaValueNow = 100 ∧
    0 ≤ (renderProgressBar 150 100).fillWidthPercent ∧
    (renderProgressBar 150 100).fillWidthPercent ≤ 100 := by
  have h := progressBar_clamped_bounds 150 100 (by norm_num)
  refine ⟨?_, h.2.2.1, h.2.2.2⟩
  rw [h.1]
  norm_num

/-- C10: `Achievement` renders the `+points` badge iff `unlocked` is true and
`points` is defined and nonzero (an unlocked achievement with `points = 0`
shows no badge), and renders the progress indicator iff `unlocked` is false
and `progress > 0` (a locked achievement with `progress = 0` shows no
progress bar). -/
theorem achievement_badge_and_progress_conditions
    (unlocked : Bool) (progress : ℚ) (points : Option ℚ) :
    ((renderAchievement unlocked progress points).showPointsBadge = true ↔
      unlocked = true ∧ ∃ p, points = some p ∧ p ≠ 0) ∧
    ((renderAchievement unlocked progress points).showProgressIndicator = true ↔
      unlocked = false ∧ 0 < progress) := by
  constructor
  · cases points with
    | none => simp [renderAchievement, jsTruthyNum]
    | some p =>
      by_cases hp : p = 0
      · simp [renderAchievement, jsTruthyNum, hp]
      · cases unlocked <;> simp [renderAchievement, jsTruthyNum, hp]
  · cases unlocked <;> simp [renderAchievement]

end MathChamp
